import Mathlib

/-!
Verification of the FHIR patient portal against its specification.

The repository's source under `frontend/src/app/page.js` provides the `Home`
component, embedded below.  The core subsystems described by the
specification (Code System Registry, Resource Validator, Reference Resolver,
SMART Authorization Flow, Token Lifecycle Manager) are not present in the
source tree; they are modelled from the specification text, as noted on each
definition.
-/

set_option maxRecDepth 2048

namespace Portal

/-! ## Home component (frontend/src/app/page.js)

The component keeps two `useState` cells, `health` and `error`, both
initialised to `null`.  A single `useEffect` with empty dependency list fires
one `fetch('/api/health')` promise chain: on success `setHealth(data)` runs,
on failure `setError(err.message)` runs; a settled promise chain runs exactly
one of the two.  Rendering shows the error paragraph when `error` is truthy,
the backend-status paragraph when `health` is truthy, and the "Connecting..."
paragraph when neither is truthy. -/

/-- A JavaScript value as far as the `Home` component distinguishes them:
`null`, a string (an error message), or the parsed health object carrying a
`status` field. -/
inductive JSVal where
  | jsNull : JSVal
  | jsStr (s : String) : JSVal
  | jsObj (status : String) : JSVal
deriving DecidableEq, Repr

/-- JavaScript truthiness restricted to the values above: `null` is falsy,
a string is truthy iff nonempty, an object is truthy. -/
def JSVal.truthy : JSVal → Bool
  | .jsNull => false
  | .jsStr s => s ≠ ""
  | .jsObj _ => true

/-- The state held by the two `useState` hooks of `Home`
(`frontend/src/app/page.js` lines 6-7). -/
structure HomeState where
  health : JSVal
  error : JSVal
deriving DecidableEq, Repr

/-- Initial state: `useState(null)` for both cells. -/
def initialHomeState : HomeState := ⟨.jsNull, .jsNull⟩

/-- How the `fetch` promise chain of the effect settles: the success
continuation receives the parsed JSON value, the `catch` continuation
receives `err.message`. -/
inductive FetchOutcome where
  | success (data : JSVal)
  | failure (message : String)

/-- Applying a settled fetch to the component state: the success path runs
`setHealth(data)`, the failure path runs `setError(err.message)`
(`page.js` lines 10-13). -/
def applyFetch (s : HomeState) : FetchOutcome → HomeState
  | .success d => { s with health := d }
  | .failure m => { s with error := .jsStr m }

/-- States the component can reach: the initial state, and the state after
the single effect's promise chain settles once. -/
inductive ReachableHome : HomeState → Prop where
  | init : ReachableHome initialHomeState
  | settled (o : FetchOutcome) : ReachableHome (applyFetch initialHomeState o)

/-- Which of the three conditional paragraphs of the JSX are rendered
(`page.js` lines 23-25). -/
structure HomeRender where
  errorPara : Bool
  healthPara : Bool
  connectingPara : Bool
deriving DecidableEq, Repr

/-- The render function of `Home`: `{error && ...}`, `{health && ...}`,
`{!health && !error && ...}`. -/
def renderHome (s : HomeState) : HomeRender :=
  ⟨s.error.truthy, s.health.truthy, !s.health.truthy && !s.error.truthy⟩

/-- **C9.** In every reachable state of `Home`, at least one of `health` and
`error` is still `null`, hence the error paragraph and the backend-status
paragraph are never rendered simultaneously. -/
theorem C9_health_error_exclusive (s : HomeState) (h : ReachableHome s) :
    (s.health = .jsNull ∨ s.error = .jsNull) ∧
      ¬((renderHome s).errorPara = true ∧ (renderHome s).healthPara = true) := by
  cases h with
  | init => exact ⟨Or.inl rfl, by simp [initialHomeState, renderHome, JSVal.truthy]⟩
  | settled o =>
    cases o with
    | success d =>
      refine ⟨Or.inr rfl, ?_⟩
      simp [applyFetch, initialHomeState, renderHome, JSVal.truthy]
    | failure m =>
      refine ⟨Or.inl rfl, ?_⟩
      simp [applyFetch, initialHomeState, renderHome, JSVal.truthy]

/-- Witness for C9 at a concrete reachable state: the state after a
successful fetch of `{status: "healthy"}`. -/
theorem C9_witness :
    ((applyFetch initialHomeState (.success (.jsObj "healthy"))).health = .jsNull ∨
      (applyFetch initialHomeState (.success (.jsObj "healthy"))).error = .jsNull) ∧
      ¬((renderHome (applyFetch initialHomeState (.success (.jsObj "healthy")))).errorPara = true ∧
        (renderHome (applyFetch initialHomeState (.success (.jsObj "healthy")))).healthPara = true) :=
  C9_health_error_exclusive _ (ReachableHome.settled (.success (.jsObj "healthy")))

/-- **C10.** On initial render, before the fetch settles, both state cells
are `null` and only the "Connecting..." paragraph is rendered. -/
theorem C10_initial_render :
    initialHomeState.health = .jsNull ∧ initialHomeState.error = .jsNull ∧
      renderHome initialHomeState = ⟨false, false, true⟩ := by
  refine ⟨rfl, rfl, ?_⟩
  decide

/-! ## Data model (spec section 3)

Modelled from the spec: the backend core (validator, registry, resolver,
SMART flow) is described in the specification but absent from the source
tree, so its data model is embedded from the specification's words. -/

/-- Modelled from the spec: the closed set of FHIR resource types the portal
serves (section 3, "Resource (variant over Patient | Observation |
MedicationRequest | Condition)"). -/
inductive ResourceType where
  | Patient | Observation | MedicationRequest | Condition
deriving DecidableEq, Repr

/-- Modelled from the spec: `CodeableValue = {system: URI, code: string,
display: string?}` (section 3). -/
structure CodeableValue where
  system : String
  code : String
  display : Option String := none
deriving DecidableEq, Repr

/-- Modelled from the spec: `ResourceReference = {targetType, targetId,
resolved: bool}`, created unresolved at parse time (section 3). -/
structure ResourceReference where
  targetType : ResourceType
  targetId : String
  resolved : Bool
deriving DecidableEq, Repr

/-- Modelled from the spec: the raw value of one field of a submitted
resource, as the validator distinguishes them (section 4.2): a primitive,
a single CodeableValue, a (possibly empty) CodeableValue list, a
resource-to-resource reference, or a quantity with a unit. -/
inductive RawField where
  | primitive (value : String)
  | codeable (cv : CodeableValue)
  | codeableList (cvs : List CodeableValue)
  | reference (targetType : ResourceType) (targetId : String)
  | quantity (value : Int) (unit : String)
deriving DecidableEq, Repr

/-- The raw fields of a submitted resource: path-value pairs. -/
abbrev RawFields := List (String × RawField)

/-- Modelled from the spec: a validated resource carries its type, id, its
fields, and its references, constructed unresolved by the validator
(section 3 and section 4.2 step 3). -/
structure Resource where
  resourceType : ResourceType
  id : String
  fields : RawFields
  refs : List (String × ResourceReference)
deriving DecidableEq, Repr

/-- Modelled from the spec: kinds of validation errors (sections 4.2 and 7):
missing required field, `UnknownSystemError`, `InvalidCodeError`, and unit
mismatch on quantity fields. -/
inductive ErrorKind where
  | missingRequiredField | unknownSystem | invalidCode | unitMismatch
deriving DecidableEq, Repr

/-- Modelled from the spec: `ValidationError = {path, kind, message}`
(section 3). -/
structure ValidationError where
  path : String
  kind : ErrorKind
  message : String
deriving DecidableEq, Repr

/-- Modelled from the spec: `ValidationResult` is either a validated
Resource or an ordered sequence of ValidationErrors (section 3). -/
inductive ValidationResult where
  | ok (r : Resource)
  | errors (es : List ValidationError)

/-- The error sequence of a validation result (`ok` carries none). -/
def ValidationResult.errorList : ValidationResult → List ValidationError
  | .ok _ => []
  | .errors es => es

/-- Whether the result is a validated resource. -/
def ValidationResult.isOk : ValidationResult → Bool
  | .ok _ => true
  | .errors _ => false

/-! ## Code System Registry (spec section 4.1) -/

/-- Modelled from the spec: the Code System Registry holds registered
terminology systems, each with a pluggable structural validator
`code -> bool` (section 4.1); dependency-injected, not ambient state
(section 9). -/
def Registry := List (String × (String → Bool))

/-- Look up the validator registered for a system URI. -/
def lookupSystem (reg : Registry) (system : String) : Option (String → Bool) :=
  match reg with
  | [] => none
  | (uri, v) :: rest => if uri = system then some v else lookupSystem rest system

/-- Modelled from the spec: `registerSystem(uri, validator)` (section 4.1). -/
def registerSystem (reg : Registry) (uri : String) (v : String → Bool) : Registry :=
  (uri, v) :: reg

/-! ## Resource Validator (spec section 4.2) -/

/-- Modelled from the spec: the fixed per-type required-field table
(section 4.2 step 1; the spec fixes Observation's entry, the others follow
FHIR R4 usage). -/
def requiredFields : ResourceType → List String
  | .Patient => ["name"]
  | .Observation => ["status", "code", "subject"]
  | .MedicationRequest => ["status", "intent", "medication", "subject"]
  | .Condition => ["code", "subject"]

/-- Modelled from the spec: the recognized unit system for quantity fields
(section 4.2 step 4). -/
def recognizedUnits : List String :=
  ["mg", "g", "kg", "mL", "L", "mmHg", "cm", "m", "beats/min", "%", "mmol/L", "Cel"]

/-- Whether a field with the given path is present among the raw fields. -/
def hasField (fields : RawFields) (path : String) : Bool :=
  fields.any (fun pf => pf.1 = path)

/-- Modelled from the spec: a code is valid for its system when the system
is registered, its structural validator accepts the code, and the code is
nonempty (a CodeableValue with empty `code` is always invalid,
section 4.2 edge case policy). -/
def codeOk (reg : Registry) (cv : CodeableValue) : Bool :=
  if cv.code = "" then false
  else
    match lookupSystem reg cv.system with
    | none => false
    | some v => v cv.code

/-- Modelled from the spec: check one CodeableValue against the registry
(section 4.2 step 2): empty code is always invalid; an unregistered system
is `UnknownSystemError`; a rejected code is `InvalidCodeError`. -/
def checkCodeable (reg : Registry) (path : String) (cv : CodeableValue) :
    List ValidationError :=
  if cv.code = "" then
    [⟨path, .invalidCode, "empty code"⟩]
  else
    match lookupSystem reg cv.system with
    | none => [⟨path, .unknownSystem, "unknown system " ++ cv.system⟩]
    | some v =>
        if v cv.code then [] else [⟨path, .invalidCode, "invalid code " ++ cv.code⟩]

/-- Modelled from the spec: per-field checks of the validator (section 4.2
steps 2-4): CodeableValue fields go through the registry (an empty list for
an optional field is valid), references are not resolved here, quantity
fields must carry a recognized unit. -/
def checkField (reg : Registry) (pf : String × RawField) : List ValidationError :=
  match pf.2 with
  | .primitive _ => []
  | .codeable cv => checkCodeable reg pf.1 cv
  | .codeableList cvs => cvs.flatMap (checkCodeable reg pf.1)
  | .reference _ _ => []
  | .quantity _ unit =>
      if unit ∈ recognizedUnits then []
      else [⟨pf.1, .unitMismatch, "unrecognized unit " ++ unit⟩]

/-- Modelled from the spec: errors for absent required fields
(section 4.2 step 1). -/
def missingErrors (rt : ResourceType) (fields : RawFields) : List ValidationError :=
  (requiredFields rt).filterMap fun f =>
    if hasField fields f then none
    else some ⟨f, .missingRequiredField, "missing required field " ++ f⟩

/-- The concatenated per-field errors of a validation pass. -/
def fieldErrors (reg : Registry) (fields : RawFields) : List ValidationError :=
  fields.flatMap (checkField reg)

/-- Modelled from the spec: drop duplicate errors at an already-seen path,
keeping the first occurrence (section 4.2 edge case policy), relative to a
set of paths already emitted. -/
def dedupByPathAux (seen : List String) : List ValidationError → List ValidationError
  | [] => []
  | e :: rest =>
      if seen.contains e.path then dedupByPathAux seen rest
      else e :: dedupByPathAux (e.path :: seen) rest

/-- Keep only the first error at each path. -/
def dedupByPath (es : List ValidationError) : List ValidationError :=
  dedupByPathAux [] es

/-- The resource id, read from the raw `id` field when present. -/
def extractId (fields : RawFields) : String :=
  match fields.findSome? (fun pf =>
      match pf with
      | ("id", .primitive v) => some v
      | _ => none) with
  | some v => v
  | none => ""

/-- Modelled from the spec: the validator constructs each ResourceReference
unresolved (section 4.2 step 3). -/
def extractRefs (fields : RawFields) : List (String × ResourceReference) :=
  fields.filterMap fun pf =>
    match pf.2 with
    | .reference t i => some (pf.1, ⟨t, i, false⟩)
    | _ => none

/-- The validated resource built from the raw fields. -/
def mkResource (rt : ResourceType) (fields : RawFields) : Resource :=
  ⟨rt, extractId fields, fields, extractRefs fields⟩

/-- Modelled from the spec: `validate(resourceType, rawFields) ->
ValidationResult` (section 4.2): collect missing-required-field errors and
per-field coding/unit errors in one pass, deduplicate by path keeping first
occurrences, and return the validated resource exactly when no error
remains (all-or-nothing, section 3). -/
def validate (reg : Registry) (rt : ResourceType) (fields : RawFields) :
    ValidationResult :=
  let errs := dedupByPath (missingErrors rt fields ++ fieldErrors reg fields)
  if errs.isEmpty then .ok (mkResource rt fields) else .errors errs

/-! ## Validator lemmas -/

/-- Every required field of the resource type is present. -/
def requiredPresent (rt : ResourceType) (fields : RawFields) : Bool :=
  (requiredFields rt).all (hasField fields)

/-- The CodeableValue content of one raw field carries only valid codes. -/
def fieldCodesOk (reg : Registry) (pf : String × RawField) : Bool :=
  match pf.2 with
  | .codeable cv => codeOk reg cv
  | .codeableList cvs => cvs.all (codeOk reg)
  | _ => true

/-- The quantity content of one raw field carries a recognized unit. -/
def unitOk (pf : String × RawField) : Bool :=
  match pf.2 with
  | .quantity _ u => decide (u ∈ recognizedUnits)
  | _ => true

/-- A raw field value is defective: it carries an invalid or
unknown-system code, or an unrecognized unit. -/
def fieldDefective (reg : Registry) : RawField → Bool
  | .codeable cv => !codeOk reg cv
  | .codeableList cvs => cvs.any (fun cv => !codeOk reg cv)
  | .quantity _ u => decide (u ∉ recognizedUnits)
  | _ => false

theorem checkCodeable_eq_nil_iff (reg : Registry) (p : String) (cv : CodeableValue) :
    checkCodeable reg p cv = [] ↔ codeOk reg cv = true := by
  unfold checkCodeable codeOk
  by_cases h : cv.code = ""
  · simp [h]
  · simp only [if_neg h]
    cases hm : lookupSystem reg cv.system with
    | none => simp
    | some v =>
        by_cases hv : v cv.code = true
        · simp [hv]
        · simp [hv]

theorem checkCodeable_paths (reg : Registry) (p : String) (cv : CodeableValue) :
    ∀ e ∈ checkCodeable reg p cv, e.path = p := by
  intro e he
  unfold checkCodeable at he
  by_cases h : cv.code = ""
  · simp [h] at he
    simp [he]
  · simp only [if_neg h] at he
    cases hm : lookupSystem reg cv.system with
    | none => rw [hm] at he; simp at he; simp [he]
    | some v =>
        rw [hm] at he
        by_cases hv : v cv.code = true
        · simp [hv] at he
        · simp [hv] at he; simp [he]

theorem checkField_paths (reg : Registry) (pf : String × RawField) :
    ∀ e ∈ checkField reg pf, e.path = pf.1 := by
  intro e he
  obtain ⟨p, fl⟩ := pf
  cases fl with
  | primitive v => simp [checkField] at he
  | codeable cv => exact checkCodeable_paths reg p cv e he
  | codeableList cvs =>
      simp only [checkField, List.mem_flatMap] at he
      obtain ⟨cv, _, he⟩ := he
      exact checkCodeable_paths reg p cv e he
  | reference t i => simp [checkField] at he
  | quantity v u =>
      simp only [checkField] at he
      by_cases hu : u ∈ recognizedUnits
      · simp [hu] at he
      · simp [hu] at he; simp [he]

theorem flatMap_eq_nil_of (f : CodeableValue → List ValidationError)
    (l : List CodeableValue) (h : ∀ x ∈ l, f x = []) : l.flatMap f = [] := by
  induction l with
  | nil => rfl
  | cons a t ih =>
      rw [List.flatMap_cons, h a (List.mem_cons_self a t), List.nil_append]
      exact ih fun x hx => h x (List.mem_cons_of_mem a hx)

theorem checkField_eq_nil (reg : Registry) (pf : String × RawField)
    (hc : fieldCodesOk reg pf = true) (hu : unitOk pf = true) :
    checkField reg pf = [] := by
  obtain ⟨p, fl⟩ := pf
  cases fl with
  | primitive v => rfl
  | codeable cv =>
      exact (checkCodeable_eq_nil_iff reg p cv).mpr hc
  | codeableList cvs =>
      simp only [fieldCodesOk, List.all_eq_true] at hc
      exact flatMap_eq_nil_of _ cvs fun cv hcv =>
        (checkCodeable_eq_nil_iff reg p cv).mpr (hc cv hcv)
  | reference t i => rfl
  | quantity v u =>
      simp only [unitOk, decide_eq_true_eq] at hu
      simp [checkField, hu]

theorem checkField_error_at (reg : Registry) (p : String) (fl : RawField)
    (hd : fieldDefective reg fl = true) :
    ∃ e ∈ checkField reg (p, fl), e.path = p := by
  cases fl with
  | primitive v => simp [fieldDefective] at hd
  | codeable cv =>
      simp only [fieldDefective, Bool.not_eq_true'] at hd
      have hne : checkCodeable reg p cv ≠ [] := by
        intro h
        rw [(checkCodeable_eq_nil_iff reg p cv).mp h] at hd
        simp at hd
      obtain ⟨e, he⟩ := List.exists_mem_of_ne_nil _ hne
      exact ⟨e, he, checkCodeable_paths reg p cv e he⟩
  | codeableList cvs =>
      simp only [fieldDefective, List.any_eq_true] at hd
      obtain ⟨cv, hcv, hbad⟩ := hd
      simp only [Bool.not_eq_true'] at hbad
      have hne : checkCodeable reg p cv ≠ [] := fun h => by
        rw [(checkCodeable_eq_nil_iff reg p cv).mp h] at hbad
        exact absurd hbad (by simp)
      obtain ⟨e, he⟩ := List.exists_mem_of_ne_nil _ hne
      refine ⟨e, ?_, checkCodeable_paths reg p cv e he⟩
      simp only [checkField, List.mem_flatMap]
      exact ⟨cv, hcv, he⟩
  | reference t i => simp [fieldDefective] at hd
  | quantity v u =>
      simp only [fieldDefective, decide_eq_true_eq] at hd
      refine ⟨⟨p, .unitMismatch, "unrecognized unit " ++ u⟩, ?_, rfl⟩
      simp [checkField, hd]

theorem fieldErrors_paths (reg : Registry) (fields : RawFields) :
    ∀ e ∈ fieldErrors reg fields, hasField fields e.path = true := by
  intro e he
  simp only [fieldErrors, List.mem_flatMap] at he
  obtain ⟨pf, hpf, he⟩ := he
  have := checkField_paths reg pf e he
  simp only [hasField, List.any_eq_true]
  exact ⟨pf, hpf, by simp [this]⟩

theorem missing_mem (rt : ResourceType) (fields : RawFields) (f : String)
    (hreq : f ∈ requiredFields rt) (hmiss : hasField fields f = false) :
    (⟨f, .missingRequiredField, "missing required field " ++ f⟩ : ValidationError) ∈
      missingErrors rt fields := by
  simp only [missingErrors, List.mem_filterMap]
  exact ⟨f, hreq, by simp [hmiss]⟩

theorem missing_paths (rt : ResourceType) (fields : RawFields) :
    ∀ e ∈ missingErrors rt fields, hasField fields e.path = false := by
  intro e he
  simp only [missingErrors, List.mem_filterMap] at he
  obtain ⟨f, _, hf⟩ := he
  by_cases h : hasField fields f = true
  · simp [h] at hf
  · simp only [Bool.not_eq_true] at h
    simp only [h, Bool.false_eq_true, if_false, Option.some_inj] at hf
    subst hf
    exact h

theorem dedupAux_sublist :
    ∀ (l : List ValidationError) (seen : List String),
      (dedupByPathAux seen l).Sublist l
  | [], _ => List.Sublist.refl []
  | e :: rest, seen => by
      unfold dedupByPathAux
      by_cases hc : seen.contains e.path = true
      · simp only [hc, if_true]
        exact (dedupAux_sublist rest seen).cons e
      · simp only [hc, Bool.false_eq_true, if_false]
        exact (dedupAux_sublist rest (e.path :: seen)).cons₂ e

theorem dedupAux_nodup :
    ∀ (l : List ValidationError) (seen : List String),
      ((dedupByPathAux seen l).map (fun e => e.path)).Nodup ∧
        ∀ e ∈ dedupByPathAux seen l, seen.contains e.path = false
  | [], _ => ⟨List.nodup_nil, by intro e he; simp [dedupByPathAux] at he⟩
  | e :: rest, seen => by
      unfold dedupByPathAux
      by_cases hc : seen.contains e.path = true
      · simp only [hc, if_true]
        exact dedupAux_nodup rest seen
      · simp only [hc, Bool.false_eq_true, if_false]
        obtain ⟨ihnd, ihseen⟩ := dedupAux_nodup rest (e.path :: seen)
        constructor
        · rw [List.map_cons, List.nodup_cons]
          refine ⟨?_, ihnd⟩
          intro hmem
          obtain ⟨x, hx, hxp⟩ := List.mem_map.mp hmem
          have := ihseen x hx
          rw [List.contains_cons] at this
          simp [hxp] at this
        · intro x hx
          rcases List.mem_cons.mp hx with h | h
          · rw [h]
            simp only [Bool.not_eq_true] at hc
            exact hc
          · have := ihseen x h
            rw [List.contains_cons] at this
            exact (Bool.or_eq_false_iff.mp this).2

theorem dedupAux_find (p : String) :
    ∀ (l : List ValidationError) (seen : List String),
      (dedupByPathAux seen l).find? (fun e => e.path = p) =
        if p ∈ seen then none else l.find? (fun e => e.path = p)
  | [], seen => by
      by_cases hs : p ∈ seen <;> simp [dedupByPathAux, hs]
  | e :: rest, seen => by
      unfold dedupByPathAux
      by_cases hc : e.path ∈ seen
      · have hcb : seen.contains e.path = true := by simpa using hc
        simp only [hcb, if_true]
        rw [dedupAux_find p rest seen]
        by_cases hp : e.path = p
        · subst hp
          simp [hc]
        · by_cases hs : p ∈ seen
          · simp [hs]
          · simp [hs, List.find?_cons, hp]
      · have hcb : seen.contains e.path = false := by simpa using hc
        simp only [hcb, Bool.false_eq_true, if_false]
        rw [List.find?_cons]
        by_cases hp : e.path = p
        · subst hp
          simp [hc, List.find?_cons]
        · have hdec : (decide (e.path = p)) = false := by simp [hp]
          simp only [hdec, Bool.false_eq_true, if_false]
          rw [dedupAux_find p rest (e.path :: seen)]
          by_cases hs : p ∈ seen
          · have hin : p ∈ e.path :: seen := List.mem_cons_of_mem _ hs
            simp [hin, hs]
          · have hnotc : p ∉ e.path :: seen := by
              intro h
              rcases List.mem_cons.mp h with h1 | h2
              · exact hp h1.symm
              · exact hs h2
            simp [hnotc, hs, List.find?_cons, hp]

theorem dedupAux_countP (p : String) :
    ∀ (l : List ValidationError) (seen : List String),
      (dedupByPathAux seen l).countP (fun e => e.path = p) =
        if p ∈ seen then 0
        else if l.any (fun e => e.path = p) then 1 else 0
  | [], seen => by
      by_cases hs : p ∈ seen <;> simp [dedupByPathAux, hs]
  | e :: rest, seen => by
      unfold dedupByPathAux
      by_cases hc : e.path ∈ seen
      · have hcb : seen.contains e.path = true := by simpa using hc
        simp only [hcb, if_true]
        rw [dedupAux_countP p rest seen]
        by_cases hp : e.path = p
        · subst hp
          simp [hc]
        · by_cases hs : p ∈ seen
          · simp [hs]
          · simp [hs, List.any_cons, hp]
      · have hcb : seen.contains e.path = false := by simpa using hc
        simp only [hcb, Bool.false_eq_true, if_false]
        rw [List.countP_cons, dedupAux_countP p rest (e.path :: seen)]
        by_cases hp : e.path = p
        · subst hp
          have hmem : e.path ∈ e.path :: seen := List.mem_cons_self _ _
          simp [hmem, hc, List.any_cons]
        · have hdec : (decide (e.path = p)) = false := by simp [hp]
          have hcons_iff : p ∈ e.path :: seen ↔ p ∈ seen := by
            constructor
            · intro h
              rcases List.mem_cons.mp h with h1 | h2
              · exact absurd h1.symm hp
              · exact h2
            · exact fun h => List.mem_cons_of_mem _ h
          by_cases hs : p ∈ seen
          · simp [hs, hcons_iff, hdec]
          · simp [hs, hcons_iff, hdec, List.any_cons, hp]

theorem validate_errorList (reg : Registry) (rt : ResourceType) (fields : RawFields) :
    (validate reg rt fields).errorList =
      dedupByPath (missingErrors rt fields ++ fieldErrors reg fields) := by
  unfold validate
  by_cases h :
      (dedupByPath (missingErrors rt fields ++ fieldErrors reg fields)).isEmpty = true
  · simp only [h, if_true, ValidationResult.errorList]
    exact (List.isEmpty_iff.mp h).symm
  · simp only [h, Bool.false_eq_true, if_false, ValidationResult.errorList]

theorem countP_dedup (es : List ValidationError) (f : String) :
    (dedupByPath es).countP (fun e => e.path = f) =
      if es.any (fun e => e.path = f) then 1 else 0 := by
  unfold dedupByPath
  rw [dedupAux_countP]
  simp

theorem missingErrors_eq_nil (rt : ResourceType) (fields : RawFields)
    (hreq : requiredPresent rt fields = true) :
    missingErrors rt fields = [] := by
  unfold missingErrors
  rw [List.filterMap_eq_nil_iff]
  intro f hf
  have := (List.all_eq_true.mp hreq) f hf
  simp [this]

theorem fieldErrors_eq_nil (reg : Registry) :
    ∀ (fields : RawFields), fields.all (fieldCodesOk reg) = true →
      fields.all unitOk = true → fieldErrors reg fields = []
  | [], _, _ => rfl
  | pf :: rest, hc, hu => by
      simp only [List.all_cons, Bool.and_eq_true] at hc hu
      obtain ⟨hc1, hc2⟩ := hc
      obtain ⟨hu1, hu2⟩ := hu
      have htail := fieldErrors_eq_nil reg rest hc2 hu2
      unfold fieldErrors at htail ⊢
      rw [List.flatMap_cons, checkField_eq_nil reg pf hc1 hu1, List.nil_append]
      exact htail

/-! ## Claims C1, C2, C7 -/

/-- A sample structural LOINC validator: nonempty, digits and dashes. -/
def loincCheck (code : String) : Bool :=
  code = "8302-2" || code = "8867-4" || code = "29463-7"

/-- A sample registry recognizing LOINC only. -/
def reg1 : Registry := [("http://loinc.org", loincCheck)]

/-- An Observation whose required fields are present, whose codes are valid,
but whose quantity field carries an unrecognized unit. -/
def obsQtyBad : RawFields :=
  [("status", .primitive "final"),
   ("code", .codeable ⟨"http://loinc.org", "8302-2", none⟩),
   ("subject", .reference .Patient "123"),
   ("valueQuantity", .quantity 180 "furlong")]

/-- **C1, counterexample.** As stated the claim fails: this Observation has
every required field present and every CodeableValue field valid for its
registered system, yet `validate` rejects it because its quantity field
carries an unrecognized unit (spec section 4.2 step 4). -/
theorem C1_counterexample :
    requiredPresent .Observation obsQtyBad = true ∧
      obsQtyBad.all (fieldCodesOk reg1) = true ∧
      (validate reg1 .Observation obsQtyBad).isOk = false := by
  decide

/-- **C1, amended.** For every resource whose required fields are all
present, whose CodeableValue fields all carry codes valid for their
registered systems, and whose quantity fields all carry recognized units,
`validate` returns the validated resource with an empty error list. -/
theorem C1_valid_resource_ok (reg : Registry) (rt : ResourceType) (fields : RawFields)
    (hreq : requiredPresent rt fields = true)
    (hcodes : fields.all (fieldCodesOk reg) = true)
    (hunits : fields.all unitOk = true) :
    validate reg rt fields = .ok (mkResource rt fields) ∧
      (validate reg rt fields).errorList = [] := by
  have hmiss := missingErrors_eq_nil rt fields hreq
  have hfe := fieldErrors_eq_nil reg fields hcodes hunits
  unfold validate
  rw [hmiss, hfe]
  simp [dedupByPath, dedupByPathAux, ValidationResult.errorList]

/-- A fully valid Observation (spec section 8's example, plus a quantity
with a recognized unit). -/
def obsGood : RawFields :=
  [("status", .primitive "final"),
   ("code", .codeable ⟨"http://loinc.org", "8302-2", none⟩),
   ("subject", .reference .Patient "123"),
   ("valueQuantity", .quantity 180 "cm")]

/-- Witness for the amended C1 at a concrete valid Observation. -/
theorem C1_witness :
    validate reg1 .Observation obsGood = .ok (mkResource .Observation obsGood) ∧
      (validate reg1 .Observation obsGood).errorList = [] :=
  C1_valid_resource_ok reg1 .Observation obsGood (by decide) (by decide) (by decide)

/-- **C2.** For every resource missing a required field of its type,
`validate` returns exactly one error whose path names that field. -/
theorem C2_missing_required_single_error (reg : Registry) (rt : ResourceType)
    (fields : RawFields) (f : String)
    (hreq : f ∈ requiredFields rt) (hmiss : hasField fields f = false) :
    ((validate reg rt fields).errorList.countP (fun e => e.path = f)) = 1 := by
  rw [validate_errorList, countP_dedup]
  have hany : ((missingErrors rt fields ++ fieldErrors reg fields).any
      (fun e => e.path = f)) = true := by
    have h1 : (missingErrors rt fields).any (fun e => e.path = f) = true :=
      List.any_eq_true.mpr ⟨_, missing_mem rt fields f hreq hmiss, by simp⟩
    rw [List.any_append, h1, Bool.true_or]
  rw [hany]
  simp

/-- An Observation missing its required `subject` field. -/
def obsMissing : RawFields :=
  [("status", .primitive "final"),
   ("code", .codeable ⟨"http://loinc.org", "8302-2", none⟩)]

/-- Witness for C2: the Observation missing `subject` gets exactly one
error at path `subject`. -/
theorem C2_witness :
    ((validate reg1 .Observation obsMissing).errorList.countP
      (fun e => e.path = "subject")) = 1 :=
  C2_missing_required_single_error reg1 .Observation obsMissing "subject"
    (by decide) (by decide)

/-- **C7.** One validation pass reports all defects: each absent required
field and each defective present field yields exactly one error at its
path; error paths are pairwise distinct (duplicates at a path dropped);
the kept error at each path is the first collected one; and the returned
sequence is a sublist of the full collected sequence. -/
theorem C7_full_error_list (reg : Registry) (rt : ResourceType) (fields : RawFields) :
    (∀ f ∈ requiredFields rt, hasField fields f = false →
        ((validate reg rt fields).errorList.countP (fun e => e.path = f)) = 1) ∧
      (∀ pf ∈ fields, fieldDefective reg pf.2 = true →
        ((validate reg rt fields).errorList.countP (fun e => e.path = pf.1)) = 1) ∧
      ((validate reg rt fields).errorList.map (fun e => e.path)).Nodup ∧
      (∀ p, (validate reg rt fields).errorList.find? (fun e => e.path = p) =
        (missingErrors rt fields ++ fieldErrors reg fields).find?
          (fun e => e.path = p)) ∧
      (validate reg rt fields).errorList.Sublist
        (missingErrors rt fields ++ fieldErrors reg fields) := by
  rw [validate_errorList]
  refine ⟨?_, ?_, ?_, ?_, ?_⟩
  · intro f hf hm
    rw [countP_dedup]
    have hany : ((missingErrors rt fields ++ fieldErrors reg fields).any
        (fun e => e.path = f)) = true := by
      have h1 : (missingErrors rt fields).any (fun e => e.path = f) = true :=
        List.any_eq_true.mpr ⟨_, missing_mem rt fields f hf hm, by simp⟩
      rw [List.any_append, h1, Bool.true_or]
    rw [hany]
    simp
  · intro pf hpf hd
    obtain ⟨p, fl⟩ := pf
    rw [countP_dedup]
    obtain ⟨e, he, hep⟩ := checkField_error_at reg p fl hd
    have hany : ((missingErrors rt fields ++ fieldErrors reg fields).any
        (fun x => x.path = p)) = true := by
      have h2 : (fieldErrors reg fields).any (fun x => x.path = p) = true := by
        apply List.any_eq_true.mpr
        refine ⟨e, ?_, by simp [hep]⟩
        simp only [fieldErrors, List.mem_flatMap]
        exact ⟨(p, fl), hpf, he⟩
      rw [List.any_append, h2, Bool.or_true]
    rw [hany]
    simp
  · exact (dedupAux_nodup _ []).1
  · intro p
    unfold dedupByPath
    rw [dedupAux_find]
    simp
  · exact dedupAux_sublist _ []

/-- An Observation with two defective fields at the same path `code`
(empty code, then unknown system), an unrecognized unit, and missing
required fields. -/
def obsDup : RawFields :=
  [("code", .codeable ⟨"http://loinc.org", "", none⟩),
   ("code", .codeable ⟨"urn:unknown", "X", none⟩),
   ("valueQuantity", .quantity 1 "furlong")]

/-- Witness for C7 at a concrete defective Observation. -/
theorem C7_witness :
    ((validate reg1 .Observation obsDup).errorList.countP
        (fun e => e.path = "status")) = 1 ∧
      ((validate reg1 .Observation obsDup).errorList.countP
        (fun e => e.path = "code")) = 1 ∧
      ((validate reg1 .Observation obsDup).errorList.countP
        (fun e => e.path = "valueQuantity")) = 1 :=
  ⟨(C7_full_error_list reg1 .Observation obsDup).1 "status" (by decide) (by decide),
   (C7_full_error_list reg1 .Observation obsDup).2.1
     ("code", .codeable ⟨"http://loinc.org", "", none⟩) (by decide) (by decide),
   (C7_full_error_list reg1 .Observation obsDup).2.1
     ("valueQuantity", .quantity 1 "furlong") (by decide) (by decide)⟩

/-! ## SMART Authorization Flow and Token Lifecycle (spec sections 4.4, 4.5) -/

/-- Modelled from the spec: the SmartSession states (section 3). -/
inductive SessionState where
  | Unauthenticated | AuthorizationPending | Authorized | Expired | Revoked
deriving DecidableEq, Repr

/-- Modelled from the spec: `SmartSession` (section 3): state, PKCE
verifier, the opaque anti-forgery state token issued by
`beginAuthorization`, token material, expiry, and granted scopes. -/
structure SmartSession where
  state : SessionState
  pkceVerifier : String
  stateToken : String
  accessToken : Option String
  refreshToken : Option String
  expiresAt : Option Nat
  grantedScopes : List String
deriving DecidableEq, Repr

/-- Modelled from the spec: the typed errors of the SMART flow and token
lifecycle (section 7). -/
inductive SmartError where
  | stateMismatch | tokenExchange | reauthenticationRequired
  | insufficientScope | expiredToken | invalidTransition
deriving DecidableEq, Repr

/-- A fresh session at login start: `Unauthenticated`, no token material. -/
def freshSession : SmartSession :=
  ⟨.Unauthenticated, "", "", none, none, none, []⟩

/-- Modelled from the spec: the token endpoint's JSON response on a
successful exchange or refresh (section 6). -/
structure TokenResponse where
  accessToken : String
  refreshToken : String
  expiresAt : Nat
  scopes : List String
deriving DecidableEq, Repr

/-- Modelled from the spec: outcome of one call to the external
authorization server's token endpoint (section 6): success with a token
response, or a non-2xx failure. -/
inductive ExchangeResult where
  | success (t : TokenResponse)
  | failure

/-- Modelled from the spec: `beginAuthorization(scopes, redirectUri)`
(section 4.4): from `Unauthenticated` only, generates a PKCE
verifier/challenge pair and an opaque state token and moves to
`AuthorizationPending`; the redirect URL embeds challenge, state and the
requested scopes.  The generated material is passed in as parameters since
randomness is an external effect. -/
def beginAuthorization (s : SmartSession) (scopes : List String)
    (redirectUri verifier challenge stateTok : String) :
    Option SmartError × SmartSession × Option String :=
  match s.state with
  | .Unauthenticated =>
      (none,
        { s with state := .AuthorizationPending, pkceVerifier := verifier,
                 stateToken := stateTok },
        some (redirectUri ++ "?challenge=" ++ challenge ++ "&state=" ++ stateTok
          ++ "&scope=" ++ String.intercalate " " scopes))
  | _ => (some .invalidTransition, s, none)

/-- Modelled from the spec: `handleCallback(code, returnedState)`
(section 4.4): from `AuthorizationPending` only; fails with
`StateMismatchError` when `returnedState` differs from the stored state
token, leaving the session unchanged; on match exchanges code + verifier
at the token endpoint; a failed exchange yields `TokenExchangeError`, the
session stays `AuthorizationPending` and the stale verifier is discarded;
a successful exchange stores the tokens and moves to `Authorized`. -/
def handleCallback (s : SmartSession) (code returnedState : String)
    (exchange : String → String → ExchangeResult) :
    Option SmartError × SmartSession :=
  match s.state with
  | .AuthorizationPending =>
      if returnedState ≠ s.stateToken then (some .stateMismatch, s)
      else
        match exchange code s.pkceVerifier with
        | .success t =>
            (none,
              { s with state := .Authorized, accessToken := some t.accessToken,
                       refreshToken := some t.refreshToken,
                       expiresAt := some t.expiresAt,
                       grantedScopes := t.scopes })
        | .failure => (some .tokenExchange, { s with pkceVerifier := "" })
  | _ => (some .invalidTransition, s)

/-- Modelled from the spec: the local expiry check against `expiresAt`
before any use of the access token (section 4.4, Authorized → Expired). -/
def expiryCheck (s : SmartSession) (now : Nat) : SmartSession :=
  match s.state, s.expiresAt with
  | .Authorized, some t => if t ≤ now then { s with state := .Expired } else s
  | _, _ => s

/-- Modelled from the spec: `refresh()` (section 4.4): from `Expired` only,
one call to the authorization server with the refresh token; on success
back to `Authorized` with the new tokens; on failure (or no refresh token)
the session transitions to `Revoked` and `ReauthenticationRequiredError`
is surfaced — a single attempt, never retried here. -/
def refresh (s : SmartSession) (call : String → ExchangeResult) :
    Option SmartError × SmartSession :=
  match s.state with
  | .Expired =>
      match s.refreshToken with
      | some rt =>
          match call rt with
          | .success t =>
              (none,
                { s with state := .Authorized, accessToken := some t.accessToken,
                         refreshToken := some t.refreshToken,
                         expiresAt := some t.expiresAt })
          | .failure =>
              (some .reauthenticationRequired, { s with state := .Revoked })
      | none => (some .reauthenticationRequired, { s with state := .Revoked })
  | _ => (some .invalidTransition, s)

/-- Modelled from the spec: explicit `revoke()` (sections 4.4, 4.5): any
state moves to `Revoked` and the token material is dropped. -/
def revoke (s : SmartSession) : SmartSession :=
  { s with state := .Revoked, accessToken := none, refreshToken := none,
           expiresAt := none }

/-- One step of the SMART state machine, as the claim about the terminal
`Revoked` state quantifies over them. -/
inductive SmartStep where
  | beginAuth (scopes : List String) (redirectUri verifier challenge stateTok : String)
  | callback (code returnedState : String) (exchange : String → String → ExchangeResult)
  | doRefresh (call : String → ExchangeResult)
  | checkExpiry (now : Nat)
  | doRevoke

/-- The session after one step (errors discarded, session kept). -/
def applyStep (s : SmartSession) : SmartStep → SmartSession
  | .beginAuth scopes uri v c st => (beginAuthorization s scopes uri v c st).2.1
  | .callback code rst ex => (handleCallback s code rst ex).2
  | .doRefresh call => (refresh s call).2
  | .checkExpiry now => expiryCheck s now
  | .doRevoke => revoke s

/-- Modelled from the spec: scope enforcement before an outbound external
FHIR call (section 4.4): the call's required scopes must all be among
`grantedScopes`, otherwise the call fails locally with
`InsufficientScopeError` and no network call is made.  The result pairs
the typed outcome with the number of network calls performed. -/
def externalFhirCall (s : SmartSession) (required : List String)
    (net : String → ExchangeResult) : (Option SmartError × Option TokenResponse) × Nat :=
  if required.all (fun r => s.grantedScopes.contains r) then
    match s.accessToken with
    | some tok =>
        match net tok with
        | .success t => ((none, some t), 1)
        | .failure => ((some .tokenExchange, none), 1)
    | none => ((some .expiredToken, none), 0)
  else ((some .insufficientScope, none), 0)

/-! ## Claims C3, C6, C8 -/

/-- **C3.** From `AuthorizationPending`, a callback whose returned state
differs from the stored state token fails with `StateMismatchError` and
returns the session unchanged (still `AuthorizationPending`). -/
theorem C3_state_mismatch (s : SmartSession) (code returnedState : String)
    (exchange : String → String → ExchangeResult)
    (hpend : s.state = .AuthorizationPending)
    (hne : returnedState ≠ s.stateToken) :
    handleCallback s code returnedState exchange = (some .stateMismatch, s) ∧
      (handleCallback s code returnedState exchange).2.state =
        .AuthorizationPending := by
  have h1 : handleCallback s code returnedState exchange =
      (some .stateMismatch, s) := by
    unfold handleCallback
    simp only [hpend]
    rw [if_pos hne]
  exact ⟨h1, by rw [h1]; exact hpend⟩

/-- A session sitting in `AuthorizationPending` with state token "st-1". -/
def pendingSession : SmartSession :=
  ⟨.AuthorizationPending, "ver-1", "st-1", none, none, none, []⟩

/-- Witness for C3: a concrete mismatched callback. -/
theorem C3_witness :
    handleCallback pendingSession "code-1" "st-WRONG" (fun _ _ => .failure) =
        (some .stateMismatch, pendingSession) ∧
      (handleCallback pendingSession "code-1" "st-WRONG"
        (fun _ _ => .failure)).2.state = .AuthorizationPending :=
  C3_state_mismatch pendingSession "code-1" "st-WRONG" (fun _ _ => .failure)
    (by decide) (by decide)

/-- **C6.** When the required scopes of an outbound call are not all among
the session's granted scopes, the call fails with
`InsufficientScopeError` and performs zero network calls. -/
theorem C6_insufficient_scope (s : SmartSession) (required : List String)
    (net : String → ExchangeResult)
    (hsub : required.all (fun r => s.grantedScopes.contains r) = false) :
    externalFhirCall s required net = ((some .insufficientScope, none), 0) := by
  unfold externalFhirCall
  rw [hsub]
  simp

/-- A session granted only `patient/Observation.read`. -/
def readOnlySession : SmartSession :=
  ⟨.Authorized, "", "st-1", some "tok-1", some "rft-1", some 1000,
    ["patient/Observation.read"]⟩

/-- Witness for C6: a write-scoped call against the read-only session. -/
theorem C6_witness :
    externalFhirCall readOnlySession ["patient/Observation.write"]
      (fun _ => .failure) = ((some .insufficientScope, none), 0) :=
  C6_insufficient_scope readOnlySession ["patient/Observation.write"]
    (fun _ => .failure) (by decide)

/-- **C8.** `Revoked` is terminal: a revoked session stays `Revoked` under
any single step of the state machine, and hence under any sequence of
steps. -/
theorem C8_revoked_terminal (s : SmartSession) (hrev : s.state = .Revoked) :
    (∀ step : SmartStep, (applyStep s step).state = .Revoked) ∧
      ∀ steps : List SmartStep, (steps.foldl applyStep s).state = .Revoked := by
  have hstep : ∀ (t : SmartSession), t.state = .Revoked →
      ∀ step : SmartStep, (applyStep t step).state = .Revoked := by
    intro t ht step
    cases step with
    | beginAuth scopes uri v c st =>
        simp only [applyStep, beginAuthorization]
        rw [ht]
        exact ht
    | callback code rst ex =>
        simp only [applyStep, handleCallback]
        rw [ht]
        exact ht
    | doRefresh call =>
        simp only [applyStep, refresh]
        rw [ht]
        exact ht
    | checkExpiry now =>
        simp only [applyStep, expiryCheck]
        rw [ht]
        exact ht
    | doRevoke => rfl
  refine ⟨hstep s hrev, ?_⟩
  intro steps
  induction steps generalizing s with
  | nil => exact hrev
  | cons step rest ih =>
      rw [List.foldl_cons]
      exact ih (applyStep s step) (hstep s hrev step)

/-- A revoked session. -/
def revokedSession : SmartSession :=
  ⟨.Revoked, "", "", none, none, none, []⟩

/-- Witness for C8: the revoked session survives a concrete step and a
concrete step sequence still revoked. -/
theorem C8_witness :
    (applyStep revokedSession
        (.beginAuth ["patient/Observation.read"] "https://app/cb" "v" "c" "st")).state =
        .Revoked ∧
      (([SmartStep.doRefresh (fun _ => .failure), SmartStep.checkExpiry 99,
          SmartStep.doRevoke].foldl applyStep revokedSession)).state = .Revoked :=
  ⟨(C8_revoked_terminal revokedSession (by decide)).1
      (.beginAuth ["patient/Observation.read"] "https://app/cb" "v" "c" "st"),
    (C8_revoked_terminal revokedSession (by decide)).2
      [SmartStep.doRefresh (fun _ => .failure), SmartStep.checkExpiry 99,
        SmartStep.doRevoke]⟩

/-! ## Reference Resolver (spec section 4.3) -/

/-- The key identifying a resource: its type and id. -/
abbrev ResKey := ResourceType × String

/-- Modelled from the spec: resolution failures (sections 4.3, 7):
an unresolvable reference, or a cyclic reference chain; the cycle payload
names each resource on the cycle together with the referencing field path
it uses to reach the next one. -/
inductive ResolutionError where
  | notFound (path : String) (targetType : ResourceType) (targetId : String)
  | cyclicReference (cycle : List (ResKey × String))
deriving DecidableEq, Repr

/-- Modelled from the spec: resolve each reference of a resource in order
(section 4.3): an already-resolved reference is left as is; an unresolved
one is confirmed through `lookup` and flipped to resolved, or the whole
resolution fails with `notFound`. -/
def resolveRefs (lookup : ResourceType → String → Bool) :
    List (String × ResourceReference) →
      Except ResolutionError (List (String × ResourceReference))
  | [] => .ok []
  | (p, ref) :: rest =>
      if ref.resolved then
        match resolveRefs lookup rest with
        | .ok rs => .ok ((p, ref) :: rs)
        | .error e => .error e
      else if lookup ref.targetType ref.targetId then
        match resolveRefs lookup rest with
        | .ok rs => .ok ((p, { ref with resolved := true }) :: rs)
        | .error e => .error e
      else .error (.notFound p ref.targetType ref.targetId)

/-- Modelled from the spec: `resolve(resource, lookup)` (section 4.3):
the resource with all references marked resolved, or a ResolutionError. -/
def resolveResource (lookup : ResourceType → String → Bool) (r : Resource) :
    Except ResolutionError Resource :=
  match resolveRefs lookup r.refs with
  | .ok rs => .ok { r with refs := rs }
  | .error e => .error e

/-- All references of a resource are already marked resolved. -/
def allResolved (r : Resource) : Bool :=
  r.refs.all (fun pr => pr.2.resolved)

theorem resolveRefs_of_resolved (lookup : ResourceType → String → Bool) :
    ∀ refs : List (String × ResourceReference),
      refs.all (fun pr => pr.2.resolved) = true → resolveRefs lookup refs = .ok refs
  | [], _ => rfl
  | (p, ref) :: rest, h => by
      simp only [List.all_cons, Bool.and_eq_true] at h
      obtain ⟨h1, h2⟩ := h
      unfold resolveRefs
      rw [if_pos h1, resolveRefs_of_resolved lookup rest h2]

theorem resolveRefs_ok_resolved (lookup : ResourceType → String → Bool) :
    ∀ (refs rs : List (String × ResourceReference)),
      resolveRefs lookup refs = .ok rs → rs.all (fun pr => pr.2.resolved) = true
  | [], rs, h => by
      simp only [resolveRefs] at h
      cases h
      rfl
  | (p, ref) :: rest, rs, h => by
      unfold resolveRefs at h
      by_cases h1 : ref.resolved = true
      · rw [if_pos h1] at h
        cases hr : resolveRefs lookup rest with
        | ok rs2 =>
            rw [hr] at h
            cases h
            simp only [List.all_cons, Bool.and_eq_true]
            exact ⟨h1, resolveRefs_ok_resolved lookup rest rs2 hr⟩
        | error e => rw [hr] at h; cases h
      · rw [if_neg h1] at h
        by_cases h2 : lookup ref.targetType ref.targetId = true
        · rw [if_pos h2] at h
          cases hr : resolveRefs lookup rest with
          | ok rs2 =>
              rw [hr] at h
              cases h
              simp only [List.all_cons, Bool.and_eq_true]
              exact ⟨trivial, resolveRefs_ok_resolved lookup rest rs2 hr⟩
          | error e => rw [hr] at h; cases h
        · rw [if_neg h2] at h
          cases h

/-- **C4.** `resolve` is idempotent: on a resource whose references are all
already resolved it is the identity (for any lookup), and a second
resolution of any successful result (under any lookup) returns that result
unchanged. -/
theorem C4_resolve_idempotent :
    (∀ (lookup : ResourceType → String → Bool) (r : Resource),
        allResolved r = true → resolveResource lookup r = .ok r) ∧
      ∀ (lookup lookup2 : ResourceType → String → Bool) (r r2 : Resource),
        resolveResource lookup r = .ok r2 → resolveResource lookup2 r2 = .ok r2 := by
  have hid : ∀ (lookup : ResourceType → String → Bool) (r : Resource),
      allResolved r = true → resolveResource lookup r = .ok r := by
    intro lookup r h
    unfold resolveResource
    rw [resolveRefs_of_resolved lookup r.refs h]
  refine ⟨hid, ?_⟩
  intro lookup lookup2 r r2 h
  unfold resolveResource at h
  cases hr : resolveRefs lookup r.refs with
  | ok rs =>
      rw [hr] at h
      cases h
      exact hid lookup2 _ (resolveRefs_ok_resolved lookup r.refs rs hr)
  | error e => rw [hr] at h; cases h

/-- An Observation whose single reference is already resolved. -/
def resolvedObs : Resource :=
  ⟨.Observation, "obs1", [], [("subject", ⟨.Patient, "123", true⟩)]⟩

/-- The same Observation before resolution. -/
def unresolvedObs : Resource :=
  ⟨.Observation, "obs1", [], [("subject", ⟨.Patient, "123", false⟩)]⟩

/-- Witness for C4: resolving the already-resolved Observation is the
identity even under a lookup that refuses everything; resolving the result
of a successful resolution returns it unchanged. -/
theorem C4_witness :
    resolveResource (fun _ _ => false) resolvedObs = .ok resolvedObs ∧
      resolveResource (fun _ _ => false) resolvedObs = .ok resolvedObs :=
  ⟨C4_resolve_idempotent.1 (fun _ _ => false) resolvedObs (by decide),
    C4_resolve_idempotent.2 (fun _ _ => true) (fun _ _ => false)
      unresolvedObs resolvedObs rfl⟩

/-! ## Bundle resolution and cycle detection (spec section 4.3)

Modelled from the spec: references within the same submitted bundle are
resolvable against an in-bundle index before falling back to `lookup`;
cyclic reference chains across the bundle are detected by depth-first
traversal with a visiting-set, yielding `CyclicReferenceError` naming the
full cycle path. -/

/-- The keys of a bundle's resources. -/
def bundleKeys (b : List Resource) : List ResKey :=
  b.map fun r => (r.resourceType, r.id)

/-- The in-bundle index: find a bundled resource by type and id. -/
def findRes (b : List Resource) (k : ResKey) : Option Resource :=
  b.find? fun r => r.resourceType = k.1 && r.id = k.2

/-- The labelled in-bundle reference edges out of one resource: the field
path and the key of each referenced resource that is itself in the bundle
(references leaving the bundle go through `lookup` and cannot close a
cycle). -/
def succs (b : List Resource) (k : ResKey) : List (String × ResKey) :=
  match findRes b k with
  | none => []
  | some r =>
      r.refs.filterMap fun pr =>
        if (findRes b (pr.2.targetType, pr.2.targetId)).isSome then
          some (pr.1, (pr.2.targetType, pr.2.targetId))
        else none

/-- Modelled from the spec: depth-first traversal with a visiting-set
(section 4.3).  `stack` is the chain of (resource key, referencing field
path) pairs leading to the current key `v`; revisiting a key on the stack
closes a cycle, returned as the stack segment from that key on.  Fuel
bounds the recursion; `bundle length + 1` always suffices. -/
def dfsCycle (b : List Resource) :
    Nat → ResKey → List (ResKey × String) → Option (List (ResKey × String))
  | 0, _, _ => none
  | fuel + 1, v, stack =>
      if (stack.map Prod.fst).contains v then
        some (stack.dropWhile fun e => e.1 ≠ v)
      else
        (succs b v).findSome? fun fw => dfsCycle b fuel fw.2 (stack ++ [(v, fw.1)])

/-- Run the depth-first search from every bundled resource. -/
def detectCycle (b : List Resource) : Option (List (ResKey × String)) :=
  (bundleKeys b).findSome? fun k => dfsCycle b (b.length + 1) k []

/-- Resolve every resource of the bundle in order. -/
def resolveAll (lookup : ResourceType → String → Bool) :
    List Resource → Except ResolutionError (List Resource)
  | [] => .ok []
  | r :: rest =>
      match resolveResource lookup r with
      | .ok r2 =>
          match resolveAll lookup rest with
          | .ok rs => .ok (r2 :: rs)
          | .error e => .error e
      | .error e => .error e

/-- The in-bundle index consulted before the external lookup. -/
def bundleLookup (b : List Resource) (lookup : ResourceType → String → Bool) :
    ResourceType → String → Bool :=
  fun t i => (findRes b (t, i)).isSome || lookup t i

/-- Modelled from the spec: bundle resolution (section 4.3): reject the
whole bundle with `CyclicReferenceError` when the reference graph has a
cycle, otherwise resolve every resource against the in-bundle index with
fallback to `lookup`. -/
def resolveBundle (b : List Resource) (lookup : ResourceType → String → Bool) :
    Except ResolutionError (List Resource) :=
  match detectCycle b with
  | some c => .error (.cyclicReference c)
  | none => resolveAll (bundleLookup b lookup) b

/-- The key a chain continues to: the first key of the list, or `v` when
the list is exhausted. -/
def headKey : List (ResKey × String) → ResKey → ResKey
  | [], v => v
  | e :: _, _ => e.1

/-- The list is a labelled chain of in-bundle edges ending with an edge
into `v`: each element's field path is an edge from its key to the next
element's key (to `v` for the last element). -/
def chainTo (b : List Resource) : List (ResKey × String) → ResKey → Bool
  | [], _ => true
  | e :: rest, v => (succs b e.1).contains (e.2, headKey rest v) && chainTo b rest v

/-- The list is a closed cycle of in-bundle edges: nonempty, a chain, and
its last edge returns to its first key. -/
def isCycleList (b : List Resource) (c : List (ResKey × String)) : Bool :=
  match c with
  | [] => false
  | e :: _ => chainTo b c e.1

/-- The bundle's reference graph contains a simple cycle (distinct keys). -/
def hasSimpleCycle (b : List Resource) : Prop :=
  ∃ c, isCycleList b c = true ∧ (c.map Prod.fst).Nodup

/-- There is an in-bundle edge from `k` to `k2` under some field path. -/
def adjB (b : List Resource) (k k2 : ResKey) : Bool :=
  (succs b k).any fun fw => fw.2 = k2

/-- `rest` is a walk in the reference graph starting after `v`. -/
def walkFrom (b : List Resource) : ResKey → List ResKey → Bool
  | _, [] => true
  | v, w :: rest => adjB b v w && walkFrom b w rest

theorem chainTo_append_right (b : List Resource) :
    ∀ (l1 l2 : List (ResKey × String)) (v : ResKey),
      chainTo b (l1 ++ l2) v = true → chainTo b l2 v = true
  | [], _, _, h => h
  | e :: l1, l2, v, h => by
      have h' : ((succs b e.1).contains (e.2, headKey (l1 ++ l2) v) &&
          chainTo b (l1 ++ l2) v) = true := h
      simp only [Bool.and_eq_true] at h'
      exact chainTo_append_right b l1 l2 v h'.2

theorem headKey_append (rest : List (ResKey × String)) (v w : ResKey) (f : String) :
    headKey (rest ++ [(v, f)]) w = headKey rest v := by
  cases rest with
  | nil => rfl
  | cons e t => rfl

theorem chainTo_snoc (b : List Resource) :
    ∀ (stack : List (ResKey × String)) (v : ResKey) (f : String) (w : ResKey),
      chainTo b stack v = true → (succs b v).contains (f, w) = true →
        chainTo b (stack ++ [(v, f)]) w = true
  | [], v, f, w, _, hc => by
      show ((succs b v).contains (f, headKey [] w) && chainTo b [] w) = true
      simp only [headKey, chainTo, Bool.and_true]
      exact hc
  | e :: rest, v, f, w, h, hc => by
      have h' : ((succs b e.1).contains (e.2, headKey rest v) &&
          chainTo b rest v) = true := h
      simp only [Bool.and_eq_true] at h'
      show ((succs b e.1).contains (e.2, headKey (rest ++ [(v, f)]) w) &&
          chainTo b (rest ++ [(v, f)]) w) = true
      simp only [Bool.and_eq_true]
      exact ⟨by rw [headKey_append]; exact h'.1,
        chainTo_snoc b rest v f w h'.2 hc⟩

theorem dropWhile_head_eq (v : ResKey) :
    ∀ (stack : List (ResKey × String)),
      (stack.map Prod.fst).contains v = true →
        ∃ f rest2, stack.dropWhile (fun e => e.1 ≠ v) = (v, f) :: rest2
  | [], h => by simp at h
  | (k, f) :: rest, h => by
      by_cases hk : k = v
      · subst hk
        exact ⟨f, rest.dropWhile (fun e => e.1 ≠ k) |> fun _ => rest, by
          simp [List.dropWhile_cons]⟩
      · have h2 : (rest.map Prod.fst).contains v = true := by
          simp only [List.map_cons, List.contains_cons] at h
          have hvk : (v == k) = false := beq_eq_false_iff_ne.mpr (Ne.symm hk)
          rw [hvk] at h
          simpa using h
        obtain ⟨f2, rest2, hd⟩ := dropWhile_head_eq v rest h2
        refine ⟨f2, rest2, ?_⟩
        simpa [List.dropWhile_cons, hk] using hd

theorem dfsCycle_sound (b : List Resource) :
    ∀ (fuel : Nat) (v : ResKey) (stack c : List (ResKey × String)),
      chainTo b stack v = true → dfsCycle b fuel v stack = some c →
        isCycleList b c = true
  | 0, v, stack, c, _, h => by simp [dfsCycle] at h
  | fuel + 1, v, stack, c, hch, h => by
      have heq : dfsCycle b (fuel + 1) v stack =
          (if (stack.map Prod.fst).contains v then
            some (stack.dropWhile fun e => e.1 ≠ v)
          else
            (succs b v).findSome? fun fw =>
              dfsCycle b fuel fw.2 (stack ++ [(v, fw.1)])) := rfl
      rw [heq] at h
      by_cases hv : (stack.map Prod.fst).contains v = true
      · rw [if_pos hv] at h
        injection h with h
        subst h
        obtain ⟨f, rest2, hd⟩ := dropWhile_head_eq v stack hv
        have hsuffix : chainTo b (stack.dropWhile fun e => e.1 ≠ v) v = true := by
          apply chainTo_append_right b (stack.takeWhile fun e => e.1 ≠ v)
          rw [List.takeWhile_append_dropWhile]
          exact hch
        rw [hd] at hsuffix ⊢
        exact hsuffix
      · rw [if_neg hv] at h
        obtain ⟨fw, hfw, hrec⟩ := List.exists_of_findSome?_eq_some h
        have hcont : (succs b v).contains fw = true := by simpa using hfw
        have hch2 : chainTo b (stack ++ [(v, fw.1)]) fw.2 = true :=
          chainTo_snoc b stack v fw.1 fw.2 hch hcont
        exact dfsCycle_sound b fuel fw.2 (stack ++ [(v, fw.1)]) c hch2 hrec

theorem chainTo_walkFrom (b : List Resource) :
    ∀ (rest : List (ResKey × String)) (k : ResKey) (f : String) (v : ResKey),
      chainTo b ((k, f) :: rest) v = true →
        walkFrom b k (rest.map Prod.fst ++ [v]) = true
  | [], k, f, v, h => by
      have h' : ((succs b k).contains (f, headKey [] v) && chainTo b [] v) = true := h
      simp only [headKey, chainTo, Bool.and_true] at h'
      show (adjB b k v && walkFrom b v []) = true
      simp only [walkFrom, Bool.and_true]
      have hmem : (f, v) ∈ succs b k := by simpa using h'
      exact List.any_eq_true.mpr ⟨(f, v), hmem, by simp⟩
  | (k2, f2) :: rest2, k, f, v, h => by
      have h' : ((succs b k).contains (f, headKey ((k2, f2) :: rest2) v) &&
          chainTo b ((k2, f2) :: rest2) v) = true := h
      simp only [headKey, Bool.and_eq_true] at h'
      show (adjB b k k2 && walkFrom b k2 (rest2.map Prod.fst ++ [v])) = true
      simp only [Bool.and_eq_true]
      constructor
      · have hmem : (f, k2) ∈ succs b k := by simpa using h'.1
        exact List.any_eq_true.mpr ⟨(f, k2), hmem, by simp⟩
      · exact chainTo_walkFrom b rest2 k2 f2 v h'.2

theorem dfsCycle_none_walk (b : List Resource) :
    ∀ (fuel : Nat) (v : ResKey) (stack : List (ResKey × String)) (rest : List ResKey),
      dfsCycle b fuel v stack = none → walkFrom b v rest = true →
        rest.length + 1 ≤ fuel →
        (v :: rest).Nodup ∧ ∀ x ∈ v :: rest, x ∉ stack.map Prod.fst
  | 0, v, stack, rest, _, _, hlen => absurd hlen (by omega)
  | fuel + 1, v, stack, rest, hnone, hwalk, hlen => by
      have heq : dfsCycle b (fuel + 1) v stack =
          (if (stack.map Prod.fst).contains v then
            some (stack.dropWhile fun e => e.1 ≠ v)
          else
            (succs b v).findSome? fun fw =>
              dfsCycle b fuel fw.2 (stack ++ [(v, fw.1)])) := rfl
      by_cases hv : (stack.map Prod.fst).contains v = true
      · rw [heq, if_pos hv] at hnone
        cases hnone
      · have hvmem : v ∉ stack.map Prod.fst := by simpa using hv
        have hsuccs : ∀ fw ∈ succs b v,
            dfsCycle b fuel fw.2 (stack ++ [(v, fw.1)]) = none := by
          rw [heq, if_neg hv] at hnone
          rw [List.findSome?_eq_none_iff] at hnone
          exact hnone
        cases rest with
        | nil =>
            refine ⟨by simp, ?_⟩
            intro x hx
            have : x = v := by simpa using hx
            rw [this]
            exact hvmem
        | cons w rest2 =>
            have hw : adjB b v w = true ∧ walkFrom b w rest2 = true := by
              have h0 : (adjB b v w && walkFrom b w rest2) = true := hwalk
              simpa [Bool.and_eq_true] using h0
            obtain ⟨f, hfw⟩ : ∃ f, (f, w) ∈ succs b v := by
              have h1 := hw.1
              simp only [adjB, List.any_eq_true] at h1
              obtain ⟨fw, hmem, heq2⟩ := h1
              obtain ⟨f0, w0⟩ := fw
              simp only [decide_eq_true_eq] at heq2
              rw [heq2] at hmem
              exact ⟨f0, hmem⟩
            have hrec := dfsCycle_none_walk b fuel w (stack ++ [(v, f)]) rest2
              (hsuccs (f, w) hfw) hw.2 (by simp only [List.length_cons] at hlen; omega)
            obtain ⟨hnd2, hout2⟩ := hrec
            have hmapsnoc : (stack ++ [(v, f)]).map Prod.fst =
                stack.map Prod.fst ++ [v] := by simp
            constructor
            · rw [List.nodup_cons]
              refine ⟨?_, hnd2⟩
              intro hvin
              have h2 := hout2 v hvin
              rw [hmapsnoc] at h2
              simp at h2
            · intro x hx
              rcases List.mem_cons.mp hx with rfl | hx2
              · exact hvmem
              · have h2 := hout2 x hx2
                rw [hmapsnoc] at h2
                intro hxs
                exact h2 (List.mem_append_left _ hxs)

theorem findRes_some_mem (b : List Resource) (k : ResKey) (r : Resource)
    (h : findRes b k = some r) : k ∈ bundleKeys b := by
  have h1 := List.find?_some h
  have h2 := List.mem_of_find?_eq_some h
  simp only [Bool.and_eq_true, decide_eq_true_eq] at h1
  simp only [bundleKeys, List.mem_map]
  refine ⟨r, h2, ?_⟩
  rw [h1.1, h1.2]

theorem mem_succs_key_mem (b : List Resource) (k : ResKey)
    (fw : String × ResKey) (h : fw ∈ succs b k) : k ∈ bundleKeys b := by
  unfold succs at h
  cases hf : findRes b k with
  | none => rw [hf] at h; simp at h
  | some r => exact findRes_some_mem b k r hf

theorem chainTo_keys_mem (b : List Resource) :
    ∀ (c : List (ResKey × String)) (v : ResKey),
      chainTo b c v = true → ∀ e ∈ c, e.1 ∈ bundleKeys b
  | [], _, _, e, he => absurd he (List.not_mem_nil e)
  | e0 :: rest, v, h, e, he => by
      have h' : ((succs b e0.1).contains (e0.2, headKey rest v) &&
          chainTo b rest v) = true := h
      simp only [Bool.and_eq_true] at h'
      rcases List.mem_cons.mp he with rfl | he2
      · have hmem : (e.2, headKey rest v) ∈ succs b e.1 := by simpa using h'.1
        exact mem_succs_key_mem b e.1 _ hmem
      · exact chainTo_keys_mem b rest v h'.2 e he2

/-- **C5.** Every bundle whose in-bundle reference graph contains a cycle is
rejected by `resolveBundle` with `CyclicReferenceError`, and the error's
payload is itself a genuine closed cycle of labelled reference edges —
naming, for each resource on the cycle, the referencing field path it uses. -/
theorem C5_cycle_detected (b : List Resource) (lookup : ResourceType → String → Bool)
    (hcyc : hasSimpleCycle b) :
    ∃ c2, resolveBundle b lookup = .error (.cyclicReference c2) ∧
      isCycleList b c2 = true := by
  obtain ⟨c, hc, hnd⟩ := hcyc
  cases c with
  | nil => simp [isCycleList] at hc
  | cons e rest =>
    obtain ⟨k, f⟩ := e
    have hch : chainTo b ((k, f) :: rest) k = true := hc
    have hwalk := chainTo_walkFrom b rest k f k hch
    have hkeys := chainTo_keys_mem b ((k, f) :: rest) k hch
    have hsub : ((k, f) :: rest).map Prod.fst ⊆ bundleKeys b := by
      intro x hx
      obtain ⟨e2, he2, hxe⟩ := List.mem_map.mp hx
      rw [← hxe]
      exact hkeys e2 he2
    have hlen : rest.length + 1 ≤ b.length := by
      have h1 := (hnd.subperm hsub).length_le
      simp only [List.length_map, List.length_cons, bundleKeys] at h1
      simpa using h1
    have hkmem : k ∈ bundleKeys b := hkeys (k, f) (List.mem_cons_self _ _)
    have hne : dfsCycle b (b.length + 1) k [] ≠ none := by
      intro hnone
      obtain ⟨hnodup, _⟩ := dfsCycle_none_walk b (b.length + 1) k []
        (rest.map Prod.fst ++ [k]) hnone hwalk
        (by simp only [List.length_append, List.length_map]; simpa using hlen)
      have hkin : k ∈ rest.map Prod.fst ++ [k] := by simp
      exact (List.nodup_cons.mp hnodup).1 hkin
    have hdet : detectCycle b ≠ none := by
      unfold detectCycle
      intro hnone
      rw [List.findSome?_eq_none_iff] at hnone
      exact hne (hnone k hkmem)
    cases hdc : detectCycle b with
    | none => exact absurd hdc hdet
    | some c2 =>
        refine ⟨c2, ?_, ?_⟩
        · unfold resolveBundle
          rw [hdc]
        · unfold detectCycle at hdc
          obtain ⟨k2, _, hdfs⟩ := List.exists_of_findSome?_eq_some hdc
          exact dfsCycle_sound b (b.length + 1) k2 [] c2 rfl hdfs

/-- Observation A referencing Condition B inside the bundle. -/
def obsA : Resource :=
  ⟨.Observation, "A", [], [("subject", ⟨.Condition, "B", false⟩)]⟩

/-- Condition B referencing Observation A back. -/
def condB : Resource :=
  ⟨.Condition, "B", [], [("evidence", ⟨.Observation, "A", false⟩)]⟩

/-- The two-resource cyclic bundle of the claim. -/
def cycBundle : List Resource := [obsA, condB]

/-- The cycle through the two resources, naming both referencing paths. -/
def cycWitnessList : List (ResKey × String) :=
  [((.Observation, "A"), "subject"), ((.Condition, "B"), "evidence")]

/-- Witness for C5: the two-resource cyclic bundle is rejected with a
`CyclicReferenceError` whose payload is a genuine cycle. -/
theorem C5_witness :
    hasSimpleCycle cycBundle ∧
      ∃ c2, resolveBundle cycBundle (fun _ _ => false) =
          .error (.cyclicReference c2) ∧ isCycleList cycBundle c2 = true :=
  ⟨⟨cycWitnessList, by decide, by decide⟩,
    C5_cycle_detected cycBundle (fun _ _ => false)
      ⟨cycWitnessList, by decide, by decide⟩⟩

end Portal
